import Mathlib

/-!
Verification of the moss repository's scoring and graph-import logic.

The repo_finder scoring pipeline is documented in
src/scripts/repo_finder/README.md (the Python script itself is not part of
the source tree), so its scoring functions are modelled from the spec and
that README. The graph viewer (src/frontends/moss-react-app/src/App.jsx)
and the two neo4j import scripts (src/unnamed/part_000, part_002) are
embedded directly from their sources.
-/

namespace Moss

/-! ## Confidence score (repo_finder README, Scoring System Breakdown) -/

/-- Modelled from the spec: the repo_finder Python script is missing from the
source tree; the README gives the formula
`Confidence Score = (Total Points / 500) * 100`, capped at 100%. -/
def confidence_score (totalPoints : ℚ) : ℚ :=
  min 100 (totalPoints / 500 * 100)

/-! ## Activity score (repo_finder README, Activity Score section) -/

/-- Modelled from the spec: normalization for metrics where higher is better,
`min((Actual Value / Maximum Value), 1) * 100`. -/
def normalize_higher (raw ceiling : ℚ) : ℚ :=
  min (raw / ceiling) 1 * 100

/-- Modelled from the spec: normalization for metrics where lower is better
(the two average-time metrics),
`max(((Maximum Value - Actual Value) / Maximum Value), 0) * 100`. -/
def normalize_lower (raw ceiling : ℚ) : ℚ :=
  max ((ceiling - raw) / ceiling) 0 * 100

/-- One activity metric: its normalization ceiling, its weight in percent and
whether a lower raw value is better. -/
structure MetricSpec where
  name : String
  ceiling : ℚ
  weight : ℚ
  lowerIsBetter : Bool

/-- Modelled from the spec: each raw metric value is normalized against the
metric's ceiling, using the lower-is-better rule for the average-time
metrics. -/
def normalized_score (m : MetricSpec) (raw : ℚ) : ℚ :=
  if m.lowerIsBetter then normalize_lower raw m.ceiling
  else normalize_higher raw m.ceiling

/-- Clamp a value to the interval [lo, hi]. -/
def clamp (x lo hi : ℚ) : ℚ := max lo (min x hi)

/-- Modelled from the spec: the weighted sum of normalized metric scores,
each weight given in percent (the README example multiplies a normalized
score of 50 by 0.20 to get 10). -/
def weighted_sum (ms : List MetricSpec) (raws : List ℚ) : ℚ :=
  ((ms.zip raws).map (fun mr => normalized_score mr.1 mr.2 * (mr.1.weight / 100))).sum

/-- Modelled from the spec: the final activity score is the weighted sum
clamped to [1, 100]. -/
def activity_score (ms : List MetricSpec) (raws : List ℚ) : ℚ :=
  clamp (weighted_sum ms raws) 1 100

/-- The default (OSSci) metric table exactly as listed in the repo_finder
README: ceilings from the Maximum Values table, weights from the Metrics and
Weights table. -/
def default_metrics : List MetricSpec :=
  [⟨"recent_commits_count", 500, 20, false⟩,
   ⟨"active_contributors_count", 50, 15, false⟩,
   ⟨"recent_issues_opened_count", 100, 10, false⟩,
   ⟨"recent_issues_closed_count", 100, 10, false⟩,
   ⟨"avg_issue_close_time", 24, 5, true⟩,
   ⟨"recent_prs_opened_count", 100, 10, false⟩,
   ⟨"recent_prs_merged_count", 100, 10, false⟩,
   ⟨"avg_pr_merge_time", 24, 5, true⟩,
   ⟨"stars_growth", 1000, 5, false⟩,
   ⟨"forks_growth", 500, 5, false⟩,
   ⟨"recent_releases_count", 20, 5, false⟩,
   ⟨"total_downloads_recent", 10000, 5, false⟩,
   ⟨"discussion_activity_count", 500, 0, false⟩]

/-- The default weight column of the README table. -/
def default_weights : List ℚ := default_metrics.map MetricSpec.weight

/-- Modelled from the spec: the repo_finder script is missing from the source
tree; the spec says user-supplied weights must sum to 100% and that a non-100
sum is a configuration error surfaced before scoring begins. -/
def validate_weights (ws : List ℚ) : Except String (List ℚ) :=
  if ws.sum = 100 then Except.ok ws
  else Except.error "configuration error: weights must sum to 100"

/-! ## Candidate discovery (spec section 4.2) -/

/-- A repository identifier, e.g. owner/name. -/
abbrev RepoId := String

/-- Modelled from the spec: a discovered repository with its stable
identifier and the set of queries that matched it. The repo_finder script is
missing from the source tree. -/
structure Candidate where
  id : RepoId
  matchedQueries : Finset String
deriving DecidableEq

/-- Modelled from the spec: Association Score = number of matching queries,
the cardinality of the matched-query set. -/
def association_score (c : Candidate) : ℕ := c.matchedQueries.card

/-- Modelled from the spec: folding one search hit into the candidate set.
When the repository identifier is already present, the current query is
added to its matched-query set rather than creating a duplicate; otherwise
a new candidate is created. -/
def addMatch (q : String) (st : List Candidate) (rid : RepoId) : List Candidate :=
  if st.any (fun c => c.id == rid) then
    st.map (fun c => if c.id == rid then ⟨c.id, insert q c.matchedQueries⟩ else c)
  else st ++ [⟨rid, {q}⟩]

/-- Modelled from the spec: running one query against the external search
API (abstracted as the function sr from query to result identifiers) and
folding every hit into the candidate set. -/
def processQuery (sr : String → List RepoId) (st : List Candidate) (q : String) :
    List Candidate :=
  (sr q).foldl (addMatch q) st

/-- Modelled from the spec: discovery runs every query in order, starting
from the empty candidate set. -/
def discover (sr : String → List RepoId) (queries : List String) : List Candidate :=
  queries.foldl (processQuery sr) []

/-- The matched-query set recorded for a given repository identifier, or the
empty set when the identifier has not been discovered. -/
def matchedIn (st : List Candidate) (rid : RepoId) : Finset String :=
  match st.find? (fun c => c.id == rid) with
  | some c => c.matchedQueries
  | none => ∅

end Moss

namespace Moss

theorem matchedIn_addMatch (q : String) (st : List Candidate) (rid x : RepoId) :
    matchedIn (addMatch q st rid) x =
      if x = rid then insert q (matchedIn st x) else matchedIn st x := by
  unfold addMatch
  by_cases hp : st.any (fun c => c.id == rid) = true
  · rw [if_pos hp]
    unfold matchedIn
    rw [List.find?_map]
    have hcomp : ((fun c => c.id == x) ∘
        (fun c : Candidate => if c.id == rid then
          Candidate.mk c.id (insert q c.matchedQueries) else c)) =
        fun c : Candidate => c.id == x := by
      funext c
      by_cases h : c.id = rid <;> simp [h]
    rw [hcomp]
    by_cases hx : x = rid
    · subst hx
      rcases hf : st.find? (fun c => c.id == x) with _ | c
      · exfalso
        rw [List.any_eq_true] at hp
        obtain ⟨c, hc, hcid⟩ := hp
        rw [List.find?_eq_none] at hf
        exact absurd hcid (by simpa using hf c hc)
      · have hcid := List.find?_some hf
        have hcid2 : c.id = x := by simpa using hcid
        simp [hf, Option.map, hcid2]
    · rcases hf : st.find? (fun c => c.id == x) with _ | c
      · simp [hf, if_neg hx]
      · have hcid := List.find?_some hf
        have hcid2 : c.id = x := by simpa using hcid
        have hne : ¬ (c.id = rid) := by rw [hcid2]; exact hx
        simp [hf, Option.map, hne, if_neg hx]
  · rw [if_neg hp]
    unfold matchedIn
    rw [List.find?_append]
    have habs : st.find? (fun c => c.id == rid) = none := by
      rw [List.find?_eq_none]
      intro c hc
      simp only [List.any_eq_true] at hp
      push_neg at hp
      simpa using hp c hc
    by_cases hx : x = rid
    · subst hx
      rw [habs]
      simp [Option.or, List.find?]
    · have hxr : ((⟨rid, {q}⟩ : Candidate).id == x) = false := by
        simpa using fun h => hx h.symm
      rcases hf : st.find? (fun c => c.id == x) with _ | c
      · simp [hf, Option.or, List.find?, hxr, if_neg hx]
      · simp [hf, Option.or, if_neg hx]

theorem matchedIn_foldl_addMatch (q : String) (rids : List RepoId) (st : List Candidate)
    (x : RepoId) :
    matchedIn (rids.foldl (addMatch q) st) x =
      if x ∈ rids then insert q (matchedIn st x) else matchedIn st x := by
  induction rids generalizing st with
  | nil => simp
  | cons r rs ih =>
    rw [List.foldl_cons, ih, matchedIn_addMatch]
    by_cases hxr : x = r
    · subst hxr
      simp [Finset.insert_idem]
    · by_cases hxs : x ∈ rs <;> simp [hxr, hxs]

theorem matchedIn_processQuery (sr : String → List RepoId) (st : List Candidate)
    (q : String) (x : RepoId) :
    matchedIn (processQuery sr st q) x =
      if x ∈ sr q then insert q (matchedIn st x) else matchedIn st x :=
  matchedIn_foldl_addMatch q (sr q) st x

theorem matchedIn_foldl_processQuery (sr : String → List RepoId) (L : List String)
    (st : List Candidate) (x : RepoId) :
    matchedIn (L.foldl (processQuery sr) st) x =
      matchedIn st x ∪ (L.filter (fun q => decide (x ∈ sr q))).toFinset := by
  induction L generalizing st with
  | nil => simp
  | cons q L ih =>
    rw [List.foldl_cons, ih, matchedIn_processQuery]
    by_cases hq : x ∈ sr q
    · simp [hq, List.filter_cons, Finset.insert_union, Finset.union_insert]
    · simp [hq, List.filter_cons]

theorem matchedIn_discover (sr : String → List RepoId) (L : List String) (x : RepoId) :
    matchedIn (discover sr L) x = (L.filter (fun q => decide (x ∈ sr q))).toFinset := by
  unfold discover
  rw [matchedIn_foldl_processQuery]
  simp [matchedIn]

theorem ids_nodup_addMatch (q : String) (st : List Candidate) (rid : RepoId)
    (h : (st.map Candidate.id).Nodup) :
    ((addMatch q st rid).map Candidate.id).Nodup := by
  unfold addMatch
  by_cases hp : st.any (fun c => c.id == rid) = true
  · rw [if_pos hp, List.map_map]
    have : (Candidate.id ∘ (fun c : Candidate => if c.id == rid then
        Candidate.mk c.id (insert q c.matchedQueries) else c)) = Candidate.id := by
      funext c
      by_cases hc : c.id = rid <;> simp [hc]
    rw [this]
    exact h
  · rw [if_neg hp, List.map_append]
    have hrid : rid ∉ st.map Candidate.id := by
      simp only [List.any_eq_true] at hp
      push_neg at hp
      intro hm
      obtain ⟨c, hc, hcid⟩ := List.mem_map.mp hm
      exact absurd (by simpa using hcid) (by simpa using hp c hc)
    simp [List.nodup_append, h, hrid]

theorem ids_nodup_foldl_addMatch (q : String) (rids : List RepoId) (st : List Candidate)
    (h : (st.map Candidate.id).Nodup) :
    (((rids.foldl (addMatch q) st)).map Candidate.id).Nodup := by
  induction rids generalizing st with
  | nil => exact h
  | cons r rs ih => exact ih _ (ids_nodup_addMatch q st r h)

theorem ids_nodup_discover (sr : String → List RepoId) (L : List String) :
    ((discover sr L).map Candidate.id).Nodup := by
  unfold discover
  have main : ∀ st : List Candidate, (st.map Candidate.id).Nodup →
      ((L.foldl (processQuery sr) st).map Candidate.id).Nodup := by
    induction L with
    | nil => exact fun st h => h
    | cons qq L ih =>
      intro st h
      exact ih _ (ids_nodup_foldl_addMatch qq (sr qq) st h)
  exact main [] (by simp)

/-! ## Hierarchical classifier (spec section 4.6) -/

/-- Modelled from the spec: a node of the hierarchical keyword taxonomy
(domain, field, subfield, topic): a name, a keyword list and child nodes.
The repo_finder script holding the taxonomy is missing from the source
tree. -/
inductive TaxNode where
  | node (name : String) (keywords : List String) (children : List TaxNode)

/-- The label of a taxonomy node. -/
def TaxNode.name : TaxNode → String
  | .node n _ _ => n

/-- The keyword list of a taxonomy node. -/
def TaxNode.keywords : TaxNode → List String
  | .node _ k _ => k

/-- The child nodes of a taxonomy node. -/
def TaxNode.children : TaxNode → List TaxNode
  | .node _ _ c => c

/-- Modelled from the spec: keyword containment in the repository text
corpus. Matching is case-insensitive, which the model realizes by
representing the corpus and the taxonomy keywords by their lowercase forms,
so that a hit is plain membership. -/
def corpusHas (corpus : List String) (kw : String) : Bool :=
  corpus.contains kw

/-- Modelled from the spec: a node's score is the count of its keywords
found in the corpus. -/
def nodeScore (corpus : List String) (n : TaxNode) : ℕ :=
  (n.keywords.filter (corpusHas corpus)).length

/-- The highest keyword-hit count among a list of sibling nodes. -/
def maxScore (corpus : List String) (cs : List TaxNode) : ℕ :=
  (cs.map (nodeScore corpus)).foldr max 0

/-- Modelled from the spec: the child selected at one level is the child
with the highest keyword-hit count, ties broken by declaration order (first
listed wins); a level with zero hits selects no child. -/
def bestChild (corpus : List String) (cs : List TaxNode) : Option TaxNode :=
  if maxScore corpus cs = 0 then none
  else cs.find? (fun c => nodeScore corpus c == maxScore corpus cs)

/-- Modelled from the spec: descend n levels from the given sibling list,
emitting the selected label at each level; once a level has zero hits that
level and every level below it are labelled Unknown. -/
def classifyLevels (corpus : List String) (n : ℕ) (cs : List TaxNode) : List String :=
  match n with
  | 0 => []
  | Nat.succ m =>
    match bestChild corpus cs with
    | none => List.replicate (m + 1) "Unknown"
    | some c => c.name :: classifyLevels corpus m c.children

/-- Modelled from the spec: the four-level domain, field, subfield, topic
classification. -/
def classify (corpus : List String) (roots : List TaxNode) : List String :=
  classifyLevels corpus 4 roots

/-- A concrete demonstration taxonomy: domain D1 with fields F1 and F2,
where F2 has subfield SF1 with topic T1, and a second domain D2. -/
def tax_D1 : TaxNode :=
  .node "D1" ["alpha"]
    [.node "F1" ["beta"] [],
     .node "F2" ["gamma"] [.node "SF1" ["delta"] [.node "T1" ["epsil"] []]]]

/-- The second demonstration domain. -/
def tax_D2 : TaxNode := .node "D2" ["zeta"] [.node "F3" ["eta"] []]

/-- The demonstration taxonomy roots. -/
def demo_taxonomy : List TaxNode := [tax_D1, tax_D2]

/-- A corpus whose only keyword hits lie on the path D1 then F2. -/
def demo_corpus : List String := ["alpha", "gamma"]

end Moss

namespace Moss

theorem le_foldr_max (l : List ℕ) (x : ℕ) (hx : x ∈ l) : x ≤ l.foldr max 0 := by
  induction l with
  | nil => cases hx
  | cons a l ih =>
    rcases List.mem_cons.mp hx with h | h
    · subst h
      exact le_max_left _ _
    · exact le_trans (ih h) (le_max_right _ _)

theorem find?_first_split {α : Type} (p : α → Bool) (l : List α) (c : α)
    (h : l.find? p = some c) :
    ∃ l1 l2, l = l1 ++ c :: l2 ∧ ∀ d ∈ l1, p d = false := by
  induction l with
  | nil => simp [List.find?] at h
  | cons a l ih =>
    rw [List.find?] at h
    cases hpa : p a with
    | true =>
      rw [hpa] at h
      obtain rfl := Option.some_inj.mp h
      exact ⟨[], l, rfl, by simp⟩
    | false =>
      rw [hpa] at h
      obtain ⟨l1, l2, hsplit, hall⟩ := ih h
      refine ⟨a :: l1, l2, by rw [hsplit]; rfl, ?_⟩
      intro d hd
      rcases List.mem_cons.mp hd with h2 | h2
      · subst h2
        exact hpa
      · exact hall d h2

theorem bestChild_some_spec (corpus : List String) (cs : List TaxNode) (c : TaxNode)
    (h : bestChild corpus cs = some c) :
    c ∈ cs ∧ 0 < nodeScore corpus c ∧
    (∀ d ∈ cs, nodeScore corpus d ≤ nodeScore corpus c) ∧
    ∃ l1 l2, cs = l1 ++ c :: l2 ∧ ∀ d ∈ l1, nodeScore corpus d < nodeScore corpus c := by
  unfold bestChild at h
  by_cases hm : maxScore corpus cs = 0
  · rw [if_pos hm] at h
    cases h
  · rw [if_neg hm] at h
    have hcmax : nodeScore corpus c = maxScore corpus cs := by
      simpa using List.find?_some h
    have hmem : c ∈ cs := List.mem_of_find?_eq_some h
    have hle : ∀ d ∈ cs, nodeScore corpus d ≤ nodeScore corpus c := by
      intro d hd
      rw [hcmax]
      exact le_foldr_max _ _ (List.mem_map.mpr ⟨d, hd, rfl⟩)
    refine ⟨hmem, ?_, hle, ?_⟩
    · rw [hcmax]
      exact Nat.pos_of_ne_zero hm
    · obtain ⟨l1, l2, hsplit, hall⟩ := find?_first_split _ _ _ h
      refine ⟨l1, l2, hsplit, ?_⟩
      intro d hd
      have hdm : d ∈ cs := by
        rw [hsplit]
        exact List.mem_append.mpr (Or.inl hd)
      have hne : nodeScore corpus d ≠ nodeScore corpus c := by
        rw [hcmax]
        simpa using hall d hd
      exact lt_of_le_of_ne (hle d hdm) hne

theorem classifyLevels_zero_hits (corpus : List String) (cs : List TaxNode) (n : ℕ)
    (h : maxScore corpus cs = 0) :
    classifyLevels corpus n cs = List.replicate n "Unknown" := by
  cases n with
  | zero => rfl
  | succ m =>
    have hb : bestChild corpus cs = none := by
      unfold bestChild
      rw [if_pos h]
    simp [classifyLevels, hb]

/-! ## Interruption and partial output (spec section 5, src/README.md) -/

/-- Modelled from the spec: the scoring loop, one step at a time. Each step
fully scores the next pending candidate and appends the completed
ScoredRecord to the list of completed work; the scripts implementing the
loop are missing from the source tree. -/
def scoreStep {α β : Type} (score : α → β) :
    List α × List β → List α × List β
  | ([], done) => ([], done)
  | (c :: rest, done) => (rest, done ++ [score c])

/-- Modelled from the spec: run the scoring loop for n steps from a given
state. -/
def runSteps {α β : Type} (score : α → β) (n : ℕ) (st : List α × List β) :
    List α × List β :=
  match n with
  | 0 => st
  | Nat.succ m => runSteps score m (scoreStep score st)

/-- Modelled from the spec: a user-triggered interrupt flushes exactly the
records completed so far to the partial output artifact. -/
def flushOnInterrupt {α β : Type} (st : List α × List β) : List β := st.2

end Moss

namespace Moss

theorem runSteps_eq {α β : Type} (score : α → β) (n : ℕ) (cands : List α)
    (done : List β) (h : n ≤ cands.length) :
    runSteps score n (cands, done) =
      (cands.drop n, done ++ (cands.take n).map score) := by
  induction n generalizing cands done with
  | zero => simp [runSteps]
  | succ m ih =>
    cases cands with
    | nil => simp at h
    | cons a rest =>
      rw [runSteps]
      show runSteps score m (rest, done ++ [score a]) = _
      rw [ih rest (done ++ [score a]) (by simpa using h)]
      simp

/-! ## Graph viewer (src/frontends/moss-react-app/src/App.jsx) -/

/-- A node as returned inside one query record, after its database integer
id has been converted to a number: id, label and caption. Embedded from
App.jsx. -/
structure RetNode where
  id : ℕ
  label : String
  caption : String
deriving DecidableEq

/-- A node held in the viewer's node map: the returned fields plus the
connections counter. Embedded from App.jsx. -/
structure GNode where
  id : ℕ
  label : String
  caption : String
  connections : ℕ
deriving DecidableEq

/-- One record of a query result: the project p, the paper pa and the SDG
node s, as destructured in ExecuteQuery. -/
structure QRecord where
  p : RetNode
  pa : RetNode
  s : RetNode
deriving DecidableEq

/-- A link pushed into the links array: source and target node ids. -/
structure GLink where
  source : ℕ
  target : ℕ
deriving DecidableEq

/-- The viewer's node map, keyed by node id in insertion order. -/
abbrev NodeMap := List (ℕ × GNode)

/-- Lookup of a node id in the node map. -/
def lookupNode (m : NodeMap) (i : ℕ) : Option GNode :=
  (m.find? (fun e => e.1 == i)).map Prod.snd

/-- Embedded from App.jsx: when the returned node id is absent a fresh entry
with connections 0 is created; the entry's connections counter is then
incremented, and an already-present entry is otherwise kept untouched. -/
def bumpNode (m : NodeMap) (nd : RetNode) : NodeMap :=
  match lookupNode m nd.id with
  | none => m ++ [(nd.id, ⟨nd.id, nd.label, nd.caption, 1⟩)]
  | some _ => m.map (fun e =>
      if e.1 == nd.id then (e.1, { e.2 with connections := e.2.connections + 1 }) else e)

/-- Embedded from App.jsx: one result record folds its paper and SDG nodes
into the map, folds the project node and pushes the paper-project link only
when includeProjects is set, and always pushes the paper-SDG link. -/
def processRecord (includeProjects : Bool) (st : NodeMap × List GLink)
    (r : QRecord) : NodeMap × List GLink :=
  let m1 := bumpNode st.1 r.pa
  let m2 := bumpNode m1 r.s
  if includeProjects then
    (bumpNode m2 r.p, (st.2 ++ [⟨r.pa.id, r.p.id⟩]) ++ [⟨r.pa.id, r.s.id⟩])
  else (m2, st.2 ++ [⟨r.pa.id, r.s.id⟩])

/-- The node-map component of processRecord. -/
def nodesStep (includeProjects : Bool) (m : NodeMap) (r : QRecord) : NodeMap :=
  let m2 := bumpNode (bumpNode m r.pa) r.s
  if includeProjects then bumpNode m2 r.p else m2

/-- The database session as seen by ExecuteQuery: running a query string
with an integer limit parameter yields the result records. -/
structure Session where
  run : String → ℤ → List QRecord

/-- Embedded from App.jsx: ExecuteQuery runs the query with the bound limit
parameter fixed at 5000 and folds every returned record into copies of the
existing node map and link list. -/
def ExecuteQuery (session : Session) (query : String) (includeProjects : Bool)
    (existingNodes : NodeMap) (existingLinks : List GLink) :
    NodeMap × List GLink :=
  (session.run query 5000).foldl (processRecord includeProjects)
    (existingNodes, existingLinks)

/-- Embedded from App.jsx handleQuerySubmit: the query submitted is the
custom query when non-empty, otherwise the selected premade query. -/
def chosenQuery (customQuery selectedQuery : String) : String :=
  if customQuery == "" then selectedQuery else customQuery

end Moss

namespace Moss

theorem bump_keys_nodup (m : NodeMap) (nd : RetNode)
    (h : (m.map Prod.fst).Nodup) : ((bumpNode m nd).map Prod.fst).Nodup := by
  unfold bumpNode
  rcases hl : lookupNode m nd.id with _ | v
  · unfold lookupNode at hl
    have hfind : m.find? (fun e => e.1 == nd.id) = none := by
      rcases hf : m.find? (fun e => e.1 == nd.id) with _ | e
      · exact hf
      · rw [hf] at hl
        simp at hl
    have hnd : nd.id ∉ m.map Prod.fst := by
      intro hm
      obtain ⟨e, he, hid⟩ := List.mem_map.mp hm
      rw [List.find?_eq_none] at hfind
      exact absurd hid (by simpa using hfind e he)
    rw [List.map_append]
    simp [List.nodup_append, h, hnd]
  · rw [List.map_map]
    have : (Prod.fst ∘ (fun e : ℕ × GNode =>
        if e.1 == nd.id then (e.1, { e.2 with connections := e.2.connections + 1 }) else e)) =
        Prod.fst := by
      funext e
      by_cases he : e.1 = nd.id <;> simp [he]
    rw [this]
    exact h

theorem bump_preserves (m : NodeMap) (nd : RetNode) (i : ℕ) (v : GNode)
    (h : lookupNode m i = some v) :
    ∃ k, lookupNode (bumpNode m nd) i =
      some ⟨v.id, v.label, v.caption, v.connections + k⟩ := by
  unfold bumpNode
  rcases hl : lookupNode m nd.id with _ | w
  · refine ⟨0, ?_⟩
    unfold lookupNode at h ⊢
    rw [List.find?_append]
    rcases hf : m.find? (fun e => e.1 == i) with _ | e
    · rw [hf] at h
      simp at h
    · rw [hf] at h
      simp at h
      simp [hf, Option.or, ← h]
  · unfold lookupNode at h ⊢
    rw [List.find?_map]
    have hcomp : ((fun e : ℕ × GNode => e.1 == i) ∘ (fun e : ℕ × GNode =>
        if e.1 == nd.id then (e.1, { e.2 with connections := e.2.connections + 1 }) else e)) =
        fun e : ℕ × GNode => e.1 == i := by
      funext e
      by_cases he : e.1 = nd.id <;> simp [he]
    rw [hcomp]
    rcases hf : m.find? (fun e => e.1 == i) with _ | e
    · rw [hf] at h
      simp at h
    · rw [hf] at h
      simp at h
      by_cases hei : e.1 = nd.id
      · refine ⟨1, ?_⟩
        simp [hf, hei, ← h]
      · refine ⟨0, ?_⟩
        simp [hf, hei, ← h]

theorem processRecord_fst (inc : Bool) (st : NodeMap × List GLink) (r : QRecord) :
    (processRecord inc st r).1 = nodesStep inc st.1 r := by
  cases inc <;> rfl

theorem foldl_processRecord_fst (inc : Bool) (records : List QRecord)
    (st : NodeMap × List GLink) :
    (records.foldl (processRecord inc) st).1 = records.foldl (nodesStep inc) st.1 := by
  induction records generalizing st with
  | nil => rfl
  | cons r rs ih =>
    rw [List.foldl_cons, List.foldl_cons, ih, processRecord_fst]

theorem nodesStep_keys_nodup (inc : Bool) (m : NodeMap) (r : QRecord)
    (h : (m.map Prod.fst).Nodup) : ((nodesStep inc m r).map Prod.fst).Nodup := by
  unfold nodesStep
  cases inc
  · exact bump_keys_nodup _ _ (bump_keys_nodup _ _ h)
  · exact bump_keys_nodup _ _ (bump_keys_nodup _ _ (bump_keys_nodup _ _ h))

theorem nodesStep_preserves (inc : Bool) (m : NodeMap) (r : QRecord) (i : ℕ) (v : GNode)
    (h : lookupNode m i = some v) :
    ∃ k, lookupNode (nodesStep inc m r) i =
      some ⟨v.id, v.label, v.caption, v.connections + k⟩ := by
  unfold nodesStep
  obtain ⟨k1, h1⟩ := bump_preserves m r.pa i v h
  obtain ⟨k2, h2⟩ := bump_preserves _ r.s i _ h1
  cases inc
  · exact ⟨k1 + k2, by simpa [Nat.add_assoc] using h2⟩
  · obtain ⟨k3, h3⟩ := bump_preserves _ r.p i _ h2
    exact ⟨k1 + k2 + k3, by simpa [Nat.add_assoc] using h3⟩

theorem foldl_nodesStep_nodup (inc : Bool) (records : List QRecord) (m : NodeMap)
    (h : (m.map Prod.fst).Nodup) :
    ((records.foldl (nodesStep inc) m).map Prod.fst).Nodup := by
  induction records generalizing m with
  | nil => exact h
  | cons r rs ih => exact ih _ (nodesStep_keys_nodup inc m r h)

theorem foldl_nodesStep_preserves (inc : Bool) (records : List QRecord) (m : NodeMap)
    (i : ℕ) (v : GNode) (h : lookupNode m i = some v) :
    ∃ k, lookupNode (records.foldl (nodesStep inc) m) i =
      some ⟨v.id, v.label, v.caption, v.connections + k⟩ := by
  induction records generalizing m v with
  | nil => exact ⟨0, by simpa using h⟩
  | cons r rs ih =>
    obtain ⟨k1, h1⟩ := nodesStep_preserves inc m r i v h
    obtain ⟨k2, h2⟩ := ih _ _ h1
    exact ⟨k1 + k2, by simpa [Nat.add_assoc] using h2⟩

end Moss

namespace Moss

/-- C1: for every non-negative point total p the confidence score equals
min(100, p/500*100), lies in [0, 100], and saturates at 100 once p reaches
500 rather than overflowing. -/
theorem confidence_score_formula_and_bounds (p : ℚ) (hp : 0 ≤ p) :
    confidence_score p = min 100 (p / 500 * 100) ∧
    0 ≤ confidence_score p ∧ confidence_score p ≤ 100 ∧
    (500 ≤ p → confidence_score p = 100) := by
  refine ⟨rfl, ?_, min_le_left _ _, ?_⟩
  · unfold confidence_score
    positivity
  · intro h
    unfold confidence_score
    rw [min_eq_left]
    linarith

/-- Witness for C1 at the concrete saturating total p = 700. -/
theorem confidence_score_formula_and_bounds_witness :
    (0:ℚ) ≤ 700 ∧
    (confidence_score 700 = min 100 (700 / 500 * 100) ∧
     0 ≤ confidence_score 700 ∧ confidence_score 700 ≤ 100 ∧
     ((500:ℚ) ≤ 700 → confidence_score 700 = 100)) :=
  ⟨by norm_num, confidence_score_formula_and_bounds 700 (by norm_num)⟩

/-- C4: for a lower-is-better metric with positive ceiling c the normalized
score equals max((c-r)/c, 0) * 100; at raw value 0 it is exactly 100 and for
every raw value at or above the ceiling it is exactly 0. -/
theorem normalize_lower_endpoints (c r : ℚ) (hc : 0 < c) :
    normalize_lower r c = max ((c - r) / c) 0 * 100 ∧
    normalize_lower 0 c = 100 ∧
    (c ≤ r → normalize_lower r c = 0) := by
  refine ⟨rfl, ?_, ?_⟩
  · unfold normalize_lower
    rw [sub_zero, div_self (ne_of_gt hc)]
    norm_num
  · intro h
    unfold normalize_lower
    rw [max_eq_right]
    · ring
    · apply div_nonpos_of_nonpos_of_nonneg <;> linarith

/-- Witness for C4 at the default average-time ceiling c = 24 and the
at-ceiling raw value r = 24. -/
theorem normalize_lower_endpoints_witness :
    (0:ℚ) < 24 ∧
    (normalize_lower 24 24 = max ((24 - 24) / 24) 0 * 100 ∧
     normalize_lower 0 24 = 100 ∧
     ((24:ℚ) ≤ 24 → normalize_lower 24 24 = 0)) :=
  ⟨by norm_num, normalize_lower_endpoints 24 24 (by norm_num)⟩

/-- C2 counterexample: under the default metric table, the all-zero input
yields activity score 10 (the two lower-is-better time metrics normalize to
100 and carry weight 5% each), not the claimed floor of 1, and the
all-at-ceiling input yields 95 (the two time metrics normalize to 0), not
the claimed 100. -/
theorem activity_score_edges_counterexample :
    activity_score default_metrics (List.replicate 13 0) = 10 ∧
    activity_score default_metrics (default_metrics.map MetricSpec.ceiling) = 95 ∧
    ¬ (activity_score default_metrics (List.replicate 13 0) = 1 ∧
       activity_score default_metrics (default_metrics.map MetricSpec.ceiling) = 100) := by
  refine ⟨?_, ?_, ?_⟩ <;>
    norm_num [activity_score, weighted_sum, default_metrics, normalized_score,
      normalize_higher, normalize_lower, clamp, List.zip, List.zipWith]

/-- C2 (amended): for every combination of raw metric values the activity
score equals the weighted sum of normalized per-metric scores clamped to
[1, 100], hence always lies in [1, 100]; under the default table the
all-zero input yields 10 and the all-at-ceiling input yields 95. -/
theorem activity_score_clamped_and_edges (ms : List MetricSpec) (raws : List ℚ) :
    activity_score ms raws = clamp (weighted_sum ms raws) 1 100 ∧
    1 ≤ activity_score ms raws ∧ activity_score ms raws ≤ 100 ∧
    activity_score default_metrics (List.replicate 13 0) = 10 ∧
    activity_score default_metrics (default_metrics.map MetricSpec.ceiling) = 95 := by
  refine ⟨rfl, le_max_left _ _, ?_, ?_, ?_⟩
  · exact max_le (by norm_num) (le_trans (min_le_right _ _) le_rfl)
  all_goals
    norm_num [activity_score, weighted_sum, default_metrics, normalized_score,
      normalize_higher, normalize_lower, clamp, List.zip, List.zipWith]

/-- C5 counterexample: the default weight table {20, 15, 10, 10, 5, 10, 10,
5, 5, 5, 5, 5, 0} listed in the README sums to 105, not 100, so under the
sum-must-be-100 rule it is itself rejected rather than accepted. -/
theorem default_weights_sum_counterexample :
    default_weights.sum = 105 ∧
    default_weights.sum ≠ 100 ∧
    (validate_weights default_weights).isOk = false := by
  refine ⟨?_, ?_, ?_⟩ <;>
    norm_num [validate_weights, default_weights, default_metrics, Except.isOk, Except.toBool]

/-- C5 (amended): a weight table is accepted iff its entries sum to exactly
100; any table summing to 99 or to 101 is rejected as a configuration error;
the README's listed default table in fact sums to 105 and is rejected by
that rule. -/
theorem weights_accepted_iff_sum_100 (ws : List ℚ) :
    ((validate_weights ws).isOk = true ↔ ws.sum = 100) ∧
    (ws.sum = 99 ∨ ws.sum = 101 → (validate_weights ws).isOk = false) ∧
    default_weights.sum = 105 ∧
    (validate_weights default_weights).isOk = false := by
  refine ⟨?_, ?_, ?_, ?_⟩
  · unfold validate_weights
    by_cases h : ws.sum = 100 <;> simp [h, Except.isOk, Except.toBool]
  · rintro (h | h) <;> norm_num [validate_weights, h, Except.isOk, Except.toBool]
  · norm_num [default_weights, default_metrics]
  · norm_num [validate_weights, default_weights, default_metrics, Except.isOk, Except.toBool]

/-- Witness for C5 on the concrete table [99], whose sum is 99 and which is
rejected. -/
theorem weights_accepted_iff_sum_100_witness :
    (([(99:ℚ)].sum = 99 ∨ [(99:ℚ)].sum = 101) ∧
     (validate_weights [99]).isOk = false) :=
  ⟨Or.inl (by norm_num),
   (weights_accepted_iff_sum_100 [99]).2.1 (Or.inl (by norm_num))⟩

/-- C3: during and after discovery every candidate's association score is the
cardinality of its matched-query set; the matched-query set recorded for any
identifier is exactly the set of distinct queries whose results contain it,
so its cardinality never decreases as further queries are processed and is
independent of the order in which queries are processed; and no identifier
ever appears twice in the candidate set. -/
theorem discovery_association_invariants (sr : String → List RepoId)
    (L L2 Lp : List String) (x : RepoId) (hperm : L.Perm Lp) :
    (∀ c ∈ discover sr L, association_score c = c.matchedQueries.card) ∧
    matchedIn (discover sr L) x = (L.filter (fun q => decide (x ∈ sr q))).toFinset ∧
    (matchedIn (discover sr L) x).card ≤ (matchedIn (discover sr (L ++ L2)) x).card ∧
    matchedIn (discover sr L) x = matchedIn (discover sr Lp) x ∧
    ((discover sr L).map Candidate.id).Nodup := by
  refine ⟨fun c _ => rfl, matchedIn_discover sr L x, ?_, ?_, ids_nodup_discover sr L⟩
  · rw [matchedIn_discover, matchedIn_discover, List.filter_append, List.toFinset_append]
    exact Finset.card_le_card Finset.subset_union_left
  · rw [matchedIn_discover, matchedIn_discover]
    exact List.toFinset_eq_of_perm _ _ (hperm.filter _)

/-- Witness for C3: two concrete query lists that are permutations of one
another record the same matched-query set for the repository r. -/
theorem discovery_association_invariants_witness :
    (["a","b"] : List String).Perm ["b","a"] ∧
    matchedIn (discover (fun _ => ["r"]) ["a","b"]) "r" =
      matchedIn (discover (fun _ => ["r"]) ["b","a"]) "r" :=
  ⟨List.Perm.swap "b" "a" [],
   (discovery_association_invariants (fun _ => ["r"]) ["a","b"] ["c"] ["b","a"] "r"
      (List.Perm.swap "b" "a" [])).2.2.2.1⟩

/-- C6: the label selected at each level is the child of the already-selected
parent with the highest keyword-hit count, ties broken by declaration order
(every earlier-listed sibling scores strictly lower); a level with zero hits
yields Unknown at that level and at every level below it; and the corpus
whose only hits lie on the path D1 then F2 classifies to exactly
D1, F2, Unknown, Unknown. -/
theorem classifier_level_selection (corpus : List String) (cs : List TaxNode)
    (c : TaxNode) (n : ℕ) :
    (bestChild corpus cs = some c →
      c ∈ cs ∧ 0 < nodeScore corpus c ∧
      (∀ d ∈ cs, nodeScore corpus d ≤ nodeScore corpus c) ∧
      ∃ l1 l2, cs = l1 ++ c :: l2 ∧
        ∀ d ∈ l1, nodeScore corpus d < nodeScore corpus c) ∧
    (maxScore corpus cs = 0 →
      classifyLevels corpus n cs = List.replicate n "Unknown") ∧
    classify demo_corpus demo_taxonomy = ["D1", "F2", "Unknown", "Unknown"] :=
  ⟨bestChild_some_spec corpus cs c, classifyLevels_zero_hits corpus cs n, by decide⟩

/-- Witness for C6: the sibling list containing only D2 has zero hits in the
demonstration corpus, so both classification levels below it come out
Unknown. -/
theorem classifier_level_selection_witness :
    maxScore demo_corpus [tax_D2] = 0 ∧
    classifyLevels demo_corpus 2 [tax_D2] = List.replicate 2 "Unknown" :=
  ⟨by decide,
   (classifier_level_selection demo_corpus [tax_D2] tax_D1 2).2.1 (by decide)⟩

/-- C7: interrupting the run after exactly n candidates have been fully
scored flushes a partial artifact holding exactly the n completed records:
each one is the score of one of the first n candidates, every completed
record is present, and nothing partially scored appears. -/
theorem interrupt_flush_exact {α β : Type} (score : α → β) (cands : List α)
    (n : ℕ) (h : n ≤ cands.length) :
    flushOnInterrupt (runSteps score n (cands, [])) = (cands.take n).map score ∧
    (flushOnInterrupt (runSteps score n (cands, []))).length = n ∧
    ∀ r ∈ flushOnInterrupt (runSteps score n (cands, [])),
      ∃ c ∈ cands.take n, r = score c := by
  rw [runSteps_eq score n cands [] h]
  refine ⟨by simp [flushOnInterrupt], ?_, ?_⟩
  · simp only [flushOnInterrupt, List.nil_append, List.length_map, List.length_take]
    omega
  · intro r hr
    simp only [flushOnInterrupt, List.nil_append, List.mem_map] at hr
    obtain ⟨c, hc, hrc⟩ := hr
    exact ⟨c, hc, hrc.symm⟩

/-- Witness for C7: interrupting after two of three candidates are scored
flushes exactly the two completed records. -/
theorem interrupt_flush_exact_witness :
    2 ≤ ([10, 20, 30] : List ℕ).length ∧
    flushOnInterrupt (runSteps (fun x => x + 1) 2 (([10, 20, 30] : List ℕ), [])) =
      (([10, 20, 30] : List ℕ).take 2).map (fun x => x + 1) :=
  ⟨by decide,
   (interrupt_flush_exact (fun x => x + 1) [10, 20, 30] 2 (by decide)).1⟩

/-- C8: starting from a node map with pairwise-distinct ids, the node map
merged by ExecuteQuery again has pairwise-distinct ids, and every id already
present keeps its existing entry: its id, label and caption are unchanged
and only its connections counter is incremented, so repeated or overlapping
query loads never duplicate a node. -/
theorem executequery_merge_no_duplicates (s : Session) (q : String) (inc : Bool)
    (m : NodeMap) (links : List GLink) (i : ℕ) (v : GNode)
    (hn : (m.map Prod.fst).Nodup) (hv : lookupNode m i = some v) :
    (((ExecuteQuery s q inc m links).1).map Prod.fst).Nodup ∧
    ∃ k, lookupNode (ExecuteQuery s q inc m links).1 i =
      some ⟨v.id, v.label, v.caption, v.connections + k⟩ := by
  unfold ExecuteQuery
  rw [foldl_processRecord_fst]
  exact ⟨foldl_nodesStep_nodup inc _ m hn, foldl_nodesStep_preserves inc _ m i v hv⟩

/-- Witness for C8: a one-record result whose paper node id 1 is already in
the map keeps the entry's label and caption and only bumps its counter. -/
theorem executequery_merge_no_duplicates_witness :
    ((([((1:ℕ), (⟨1, "Paper", "x", 3⟩ : GNode))] : NodeMap).map Prod.fst).Nodup ∧
     lookupNode [((1:ℕ), (⟨1, "Paper", "x", 3⟩ : GNode))] 1 = some ⟨1, "Paper", "x", 3⟩) ∧
    ((((ExecuteQuery ⟨fun _ _ => [⟨⟨2, "Project", "p"⟩, ⟨1, "Paper", "x"⟩, ⟨3, "SDG", "s"⟩⟩]⟩
          "q" true [((1:ℕ), (⟨1, "Paper", "x", 3⟩ : GNode))] []).1).map Prod.fst).Nodup ∧
     ∃ k, lookupNode (ExecuteQuery
          ⟨fun _ _ => [⟨⟨2, "Project", "p"⟩, ⟨1, "Paper", "x"⟩, ⟨3, "SDG", "s"⟩⟩]⟩
          "q" true [((1:ℕ), (⟨1, "Paper", "x", 3⟩ : GNode))] []).1 1 =
        some ⟨1, "Paper", "x", 3 + k⟩) :=
  ⟨⟨by decide, by decide⟩,
   executequery_merge_no_duplicates
     ⟨fun _ _ => [⟨⟨2, "Project", "p"⟩, ⟨1, "Paper", "x"⟩, ⟨3, "SDG", "s"⟩⟩]⟩
     "q" true [((1:ℕ), (⟨1, "Paper", "x", 3⟩ : GNode))] [] 1 ⟨1, "Paper", "x", 3⟩
     (by decide) (by decide)⟩

/-- C10: ExecuteQuery always runs its query with the bound limit parameter
fixed at 5000: its result is literally the fold over the session's response
at limit 5000, two sessions agreeing at limit 5000 are indistinguishable,
and this holds whichever way the submitted query was chosen between the
custom text and the selected premade query. -/
theorem executequery_limit_5000 (s s2 : Session) (q : String) (inc : Bool)
    (m : NodeMap) (links : List GLink)
    (h : s.run q 5000 = s2.run q 5000) :
    ExecuteQuery s q inc m links =
      (s.run q 5000).foldl (processRecord inc) (m, links) ∧
    ExecuteQuery s q inc m links = ExecuteQuery s2 q inc m links ∧
    (∀ customQuery selectedQuery : String,
      ExecuteQuery s (chosenQuery customQuery selectedQuery) inc m links =
        (s.run (chosenQuery customQuery selectedQuery) 5000).foldl
          (processRecord inc) (m, links)) := by
  refine ⟨rfl, ?_, fun _ _ => rfl⟩
  unfold ExecuteQuery
  rw [h]

/-- Witness for C10 on a concrete empty-response session. -/
theorem executequery_limit_5000_witness :
    (Session.mk fun _ _ => ([] : List QRecord)).run "q" 5000 =
      (Session.mk fun _ _ => ([] : List QRecord)).run "q" 5000 ∧
    ExecuteQuery ⟨fun _ _ => []⟩ "q" true [] [] =
      ExecuteQuery ⟨fun _ _ => []⟩ "q" true [] [] :=
  ⟨rfl,
   (executequery_limit_5000 ⟨fun _ _ => []⟩ ⟨fun _ _ => []⟩ "q" true [] [] rfl).2.1⟩

end Moss

namespace Moss

/-! ## Graph-database import scripts (src/unnamed/part_000 and part_002) -/

/-- The relationship types MERGEd by the Project steps of the import
scripts. -/
inductive RelType where
  | FISCALLY_SPONSORED_BY
  | DEPENDS_ON
  | COMPLEMENTS
  | ENHANCES
  | DOWNSTREAM_OF
  | ALTERNATIVE_TO
deriving DecidableEq

/-- A Project node as used by the Alternatives import step: its Name, its
ProjectID and its Alternatives column, split into a list. -/
structure ProjectNode where
  name : String
  projectID : String
  alternatives : List String
deriving DecidableEq

/-- A relationship in the graph: source node, type, destination node. -/
structure GraphRel where
  src : ProjectNode
  rtype : RelType
  dst : ProjectNode
deriving DecidableEq

/-- Embedded from src/unnamed/part_000: the step commented as
Project, ALTERNATIVE_TO, Project. For each project n0 and each entry i of
its Alternatives list, every project n1 whose Name equals i is connected by
MERGE of an edge n1 to n0 whose type is DOWNSTREAM_OF. -/
def alternativesStepByName (ps : List ProjectNode) : List GraphRel :=
  ps.flatMap (fun n0 => n0.alternatives.flatMap (fun i =>
    (ps.filter (fun n1 => n1.name == i)).map
      (fun n1 => ⟨n1, RelType.DOWNSTREAM_OF, n0⟩)))

/-- Embedded from src/unnamed/part_002: the same step in the second import
script, which matches projects on ProjectID instead of Name and likewise
MERGEs an edge of type DOWNSTREAM_OF. -/
def alternativesStepByID (ps : List ProjectNode) : List GraphRel :=
  ps.flatMap (fun n0 => n0.alternatives.flatMap (fun i =>
    (ps.filter (fun n1 => n1.projectID == i)).map
      (fun n1 => ⟨n1, RelType.DOWNSTREAM_OF, n0⟩)))

end Moss

namespace Moss

/-- C9: in both import scripts the step commented as creating ALTERNATIVE_TO
relationships in fact merges DOWNSTREAM_OF relationships, each going from a
project named (or identified) in another project's Alternatives list to
that project, and no relationship of type ALTERNATIVE_TO is ever created by
either step. -/
theorem alternatives_step_creates_downstream (ps : List ProjectNode) (r : GraphRel) :
    (r ∈ alternativesStepByName ps →
      r.rtype = RelType.DOWNSTREAM_OF ∧
      ∃ n0 ∈ ps, ∃ n1 ∈ ps, n1.name ∈ n0.alternatives ∧
        r = ⟨n1, RelType.DOWNSTREAM_OF, n0⟩) ∧
    (r ∈ alternativesStepByID ps →
      r.rtype = RelType.DOWNSTREAM_OF ∧
      ∃ n0 ∈ ps, ∃ n1 ∈ ps, n1.projectID ∈ n0.alternatives ∧
        r = ⟨n1, RelType.DOWNSTREAM_OF, n0⟩) ∧
    (r.rtype = RelType.ALTERNATIVE_TO →
      r ∉ alternativesStepByName ps ∧ r ∉ alternativesStepByID ps) := by
  have h1 : r ∈ alternativesStepByName ps →
      r.rtype = RelType.DOWNSTREAM_OF ∧
      ∃ n0 ∈ ps, ∃ n1 ∈ ps, n1.name ∈ n0.alternatives ∧
        r = ⟨n1, RelType.DOWNSTREAM_OF, n0⟩ := by
    intro hm
    simp only [alternativesStepByName, List.mem_flatMap, List.mem_map,
      List.mem_filter] at hm
    obtain ⟨n0, hn0, i, hi, n1, ⟨hn1, hname⟩, hr⟩ := hm
    subst hr
    refine ⟨rfl, n0, hn0, n1, hn1, ?_, rfl⟩
    have : n1.name = i := by simpa using hname
    rw [this]
    exact hi
  have h2 : r ∈ alternativesStepByID ps →
      r.rtype = RelType.DOWNSTREAM_OF ∧
      ∃ n0 ∈ ps, ∃ n1 ∈ ps, n1.projectID ∈ n0.alternatives ∧
        r = ⟨n1, RelType.DOWNSTREAM_OF, n0⟩ := by
    intro hm
    simp only [alternativesStepByID, List.mem_flatMap, List.mem_map,
      List.mem_filter] at hm
    obtain ⟨n0, hn0, i, hi, n1, ⟨hn1, hid⟩, hr⟩ := hm
    subst hr
    refine ⟨rfl, n0, hn0, n1, hn1, ?_, rfl⟩
    have : n1.projectID = i := by simpa using hid
    rw [this]
    exact hi
  refine ⟨h1, h2, ?_⟩
  intro halt
  constructor
  · intro hm
    rw [(h1 hm).1] at halt
    cases halt
  · intro hm
    rw [(h2 hm).1] at halt
    cases halt

/-- Witness for C9: with project B listing A among its Alternatives, the
step produces the DOWNSTREAM_OF relationship from A to B. -/
theorem alternatives_step_creates_downstream_witness :
    (⟨⟨"A", "idA", []⟩, RelType.DOWNSTREAM_OF, ⟨"B", "idB", ["A"]⟩⟩ : GraphRel) ∈
      alternativesStepByName [⟨"A", "idA", []⟩, ⟨"B", "idB", ["A"]⟩] ∧
    ((⟨⟨"A", "idA", []⟩, RelType.DOWNSTREAM_OF, ⟨"B", "idB", ["A"]⟩⟩ : GraphRel).rtype =
      RelType.DOWNSTREAM_OF ∧
     ∃ n0 ∈ [(⟨"A", "idA", []⟩ : ProjectNode), ⟨"B", "idB", ["A"]⟩],
       ∃ n1 ∈ [(⟨"A", "idA", []⟩ : ProjectNode), ⟨"B", "idB", ["A"]⟩],
         n1.name ∈ n0.alternatives ∧
         (⟨⟨"A", "idA", []⟩, RelType.DOWNSTREAM_OF, ⟨"B", "idB", ["A"]⟩⟩ : GraphRel) =
           ⟨n1, RelType.DOWNSTREAM_OF, n0⟩) :=
  ⟨by decide,
   (alternatives_step_creates_downstream [⟨"A", "idA", []⟩, ⟨"B", "idB", ["A"]⟩]
      ⟨⟨"A", "idA", []⟩, RelType.DOWNSTREAM_OF, ⟨"B", "idB", ["A"]⟩⟩).1 (by decide)⟩

end Moss
